import Mathlib

/-!
Verification of the versioning and caching layer of the katha picture-book
repository: a shallow embedding of `scripts/versioning.py` and the version
resolver plus prompt-saving helpers of `scripts/gen_book.py`, followed by
theorems settling the stated properties.

Modelling conventions:
- Python dictionaries are modelled as association lists (`lookupA` reads like
  `dict.get`, `setA` writes like `d[k] = v`, replacing in place when the key
  is present and appending otherwise).
- The filesystem state relevant to versioning is a record `VersionsFS`:
  whether the `out/versions` directory exists, the names of its
  subdirectories (the entries created there are directories, so the
  `is_dir()` filter of the source is folded into the model), and the
  `manifest.yaml` contents per version number.
- `sys.exit(1)` is modelled by the `CheckResult.exit` constructor carrying
  the (unchanged) filesystem state at the moment of exit; an uncaught Python
  exception is modelled by `Except.error`.
- Machine-level details follow the source: SHA-256 is implemented in full
  over byte lists with `Nat` arithmetic reduced modulo `2 ^ 32`, strings are
  UTF-8 encoded exactly as `str.encode()` does, and Python string sorting is
  lexicographic on code points, matching the Lean order on `String`.
-/

/-- Association-list lookup, modelling a Python dict read (`d.get(k)`). -/
def lookupA {κ α : Type} [DecidableEq κ] : List (κ × α) → κ → Option α
  | [], _ => none
  | (k, v) :: rest, key => if k = key then some v else lookupA rest key

/-- Association-list update, modelling Python dict assignment `d[k] = v`:
the value is replaced in place when the key is present and appended at the
end otherwise (Python dicts preserve insertion order). -/
def setA {κ α : Type} [DecidableEq κ] : List (κ × α) → κ → α → List (κ × α)
  | [], key, v => [(key, v)]
  | (k, w) :: rest, key, v =>
      if k = key then (key, v) :: rest else (k, w) :: setA rest key v

/-! ### SHA-256 over byte lists

`compute_prompt_hash` uses `hashlib.sha256(content.encode()).hexdigest()[:5]`.
The hash is implemented here in full: 32-bit words are `Nat` values kept
below `2 ^ 32` by explicit reduction. -/

/-- Addition of two 32-bit words, modulo `2 ^ 32`. -/
def add32 (a b : Nat) : Nat := (a + b) % 4294967296

/-- Right rotation of a 32-bit word by `n` bits. -/
def rotr32 (n x : Nat) : Nat := (x / 2 ^ n + x % 2 ^ n * 2 ^ (32 - n)) % 4294967296

/-- Logical right shift of a 32-bit word by `n` bits. -/
def shr32 (n x : Nat) : Nat := x / 2 ^ n

/-- SHA-256 big Sigma-0 word function. -/
def bigSigma0 (x : Nat) : Nat := rotr32 2 x ^^^ rotr32 13 x ^^^ rotr32 22 x

/-- SHA-256 big Sigma-1 word function. -/
def bigSigma1 (x : Nat) : Nat := rotr32 6 x ^^^ rotr32 11 x ^^^ rotr32 25 x

/-- SHA-256 small sigma-0 word function. -/
def smallSigma0 (x : Nat) : Nat := rotr32 7 x ^^^ rotr32 18 x ^^^ shr32 3 x

/-- SHA-256 small sigma-1 word function. -/
def smallSigma1 (x : Nat) : Nat := rotr32 17 x ^^^ rotr32 19 x ^^^ shr32 10 x

/-- SHA-256 choice function. -/
def ch32 (x y z : Nat) : Nat := (x &&& y) ^^^ ((x ^^^ 4294967295) &&& z)

/-- SHA-256 majority function. -/
def maj32 (x y z : Nat) : Nat := (x &&& y) ^^^ (x &&& z) ^^^ (y &&& z)

/-- The 64 SHA-256 round constants, written in decimal. -/
def sha256K : List Nat :=
  [1116352408, 1899447441, 3049323471, 3921009573, 961987163,
   1508970993, 2453635748, 2870763221, 3624381080, 310598401,
   607225278, 1426881987, 1925078388, 2162078206, 2614888103,
   3248222580, 3835390401, 4022224774, 264347078, 604807628,
   770255983, 1249150122, 1555081692, 1996064986, 2554220882,
   2821834349, 2952996808, 3210313671, 3336571891, 3584528711,
   113926993, 338241895, 666307205, 773529912, 1294757372,
   1396182291, 1695183700, 1986661051, 2177026350, 2456956037,
   2730485921, 2820302411, 3259730800, 3345764771, 3516065817,
   3600352804, 4094571909, 275423344, 430227734, 506948616,
   659060556, 883997877, 958139571, 1322822218, 1537002063,
   1747873779, 1955562222, 2024104815, 2227730452, 2361852424,
   2428436474, 2756734187, 3204031479, 3329325298]

/-- The SHA-256 initial hash value, written in decimal. -/
def sha256H0 : List Nat :=
  [1779033703, 3144134277, 1013904242, 2773480762,
   1359893119, 2600822924, 528734635, 1541459225]

/-- SHA-256 padding: append the byte 0x80, zero bytes up to 56 mod 64, and
the original length in bits as an 8-byte big-endian integer. -/
def sha256Pad (msg : List Nat) : List Nat :=
  let len := msg.length
  let k := (119 - len % 64) % 64
  let bitLen := len * 8
  msg ++ [128] ++ List.replicate k 0 ++
    (List.range 8).map (fun i => bitLen / 2 ^ (8 * (7 - i)) % 256)

/-- Big-endian conversion of a list of bytes into one word. -/
def bytesToWord (b : List Nat) : Nat := b.foldl (fun acc x => acc * 256 + x) 0

/-- The sixteen 32-bit words of one 64-byte block. -/
def blockWords (block : List Nat) : List Nat :=
  (List.range 16).map (fun i => bytesToWord ((block.drop (4 * i)).take 4))

/-- Extend the message schedule by `n` further words. -/
def sha256Schedule : Nat → List Nat → List Nat
  | 0, w => w
  | n + 1, w =>
      let len := w.length
      let next := add32 (add32 (smallSigma1 (w.getD (len - 2) 0)) (w.getD (len - 7) 0))
                        (add32 (smallSigma0 (w.getD (len - 15) 0)) (w.getD (len - 16) 0))
      sha256Schedule n (w ++ [next])

/-- One SHA-256 compression round step on the eight-word working state. -/
def sha256Round (w : List Nat) (s : List Nat) (t : Nat) : List Nat :=
  match s with
  | [a, b, c, d, e, f, g, h] =>
      let t1 := add32 h (add32 (bigSigma1 e)
        (add32 (ch32 e f g) (add32 (sha256K.getD t 0) (w.getD t 0))))
      let t2 := add32 (bigSigma0 a) (maj32 a b c)
      [add32 t1 t2, a, b, c, add32 d t1, e, f, g]
  | s => s

/-- SHA-256 compression of one 64-byte block into the running hash. -/
def sha256Compress (h : List Nat) (block : List Nat) : List Nat :=
  let w := sha256Schedule 48 (blockWords block)
  let v := (List.range 64).foldl (sha256Round w) h
  (h.zip v).map (fun p => add32 p.1 p.2)

/-- SHA-256 of a byte list, as the list of eight 32-bit hash words. -/
def sha256Words (msg : List Nat) : List Nat :=
  let padded := sha256Pad msg
  let nblocks := padded.length / 64
  (List.range nblocks).foldl
    (fun h i => sha256Compress h ((padded.drop (64 * i)).take 64)) sha256H0

/-- Lower-case hexadecimal digit for a value below 16. -/
def hexDigit (n : Nat) : Char := Char.ofNat (if n < 10 then 48 + n else 87 + n)

/-- Eight hexadecimal characters of one 32-bit word, most significant first. -/
def wordToHex (x : Nat) : List Char :=
  (List.range 8).map (fun i => hexDigit (x / 16 ^ (7 - i) % 16))

/-- Hexadecimal digest of a byte list, as `hashlib.sha256(b).hexdigest()`. -/
def sha256Hex (msg : List Nat) : String :=
  String.mk ((sha256Words msg).foldr (fun w acc => wordToHex w ++ acc) [])

/-- UTF-8 encoding of one character, as a list of byte values. -/
def utf8Char (c : Char) : List Nat :=
  let n := c.toNat
  if n < 128 then [n]
  else if n < 2048 then [192 + n / 64, 128 + n % 64]
  else if n < 65536 then [224 + n / 4096, 128 + n / 64 % 64, 128 + n % 64]
  else [240 + n / 262144, 128 + n / 4096 % 64, 128 + n / 64 % 64, 128 + n % 64]

/-- UTF-8 encoding of a string, modelling Python `str.encode()`. -/
def utf8Encode (s : String) : List Nat := s.data.flatMap utf8Char

/-! ### Python primitives used by the versioning module -/

/-- Decimal digits of a natural number, most significant first; the first
argument is structural-recursion fuel, always sufficient when at least the
number of digits. -/
def pyNatDigitsAux : Nat → Nat → List Char
  | 0, n => [Char.ofNat (48 + n % 10)]
  | fuel + 1, n =>
      if n < 10 then [Char.ofNat (48 + n)]
      else pyNatDigitsAux fuel (n / 10) ++ [Char.ofNat (48 + n % 10)]

/-- Decimal digits of a natural number, most significant first. -/
def pyNatDigits (n : Nat) : List Char := pyNatDigitsAux n n

/-- Decimal string of a natural number. -/
def natStr (n : Nat) : String := String.mk (pyNatDigits n)

/-- Python `str` of an integer (sign followed by decimal digits). -/
def pyIntStr (i : Int) : String :=
  if i < 0 then "-" ++ natStr i.natAbs else natStr i.natAbs

/-- Python `s.isdigit()` restricted to the ASCII range: nonempty and all
characters are decimal digits. -/
def pyIsdigit (s : String) : Bool :=
  !s.data.isEmpty && s.data.all (fun c => c.isDigit)

/-- Python `int(s)` for a string of decimal digits. -/
def pyInt (s : String) : Nat := s.data.foldl (fun n c => n * 10 + (c.toNat - 48)) 0

/-- Python whitespace test for `str.strip()` (ASCII whitespace). -/
def pyIsSpace (c : Char) : Bool :=
  c == ' ' || c == '\t' || c == '\n' || c == '\r' || c == '\x0b' || c == '\x0c'

/-- Python `str.strip()`: remove leading and trailing whitespace. -/
def pyStrip (s : String) : String :=
  String.mk (((s.data.dropWhile pyIsSpace).reverse.dropWhile pyIsSpace).reverse)

/-! ### scripts/versioning.py -/

/-- One value of the per-page `images` mapping of a manifest: the stored
filename and the stored fingerprint. The fingerprint is optional because the
resolver reads it with `v.get("prompt_hash")`, which yields `None` when the
key is absent from the parsed YAML. -/
structure ImageEntry where
  file : String
  promptHash : Option String
deriving DecidableEq, Repr

/-- A parsed `manifest.yaml`, with the fields written by
`create_new_version`. -/
structure Manifest where
  version : Nat
  created : String
  commit : String
  message : String
  style : String
  images : List (String × ImageEntry)
  books : List String
deriving DecidableEq, Repr

/-- The filesystem state the versioning layer reads and writes: whether
`out/versions` exists, the names of its subdirectories, and the parsed
`manifest.yaml` of each version directory. Only directories are ever created
under `out/versions` (by `write_manifest`), so entries are directory names
and the `is_dir()` filter of the source is always satisfied. -/
structure VersionsFS where
  dirExists : Bool
  dirs : List String
  manifests : List (Nat × Manifest)
deriving DecidableEq, Repr

/-- Directory name of a version: Python `f"{version:02d}"`, the decimal
digits zero-padded on the left to width two. -/
def pad2 (v : Nat) : String := if v < 10 then "0" ++ natStr v else natStr v

/-- `get_latest_version`: 0 when `out/versions` does not exist, otherwise
the maximum over the directory entries whose name is all digits of length
exactly two, taking each such name as an integer. -/
def get_latest_version (fs : VersionsFS) : Nat :=
  if fs.dirExists then
    fs.dirs.foldl
      (fun maxVersion name =>
        if pyIsdigit name && name.length == 2
        then max maxVersion (pyInt name) else maxVersion)
      0
  else 0

/-- `read_manifest`: the parsed manifest of a version, or `none` when the
manifest file does not exist. -/
def read_manifest (version : Nat) (fs : VersionsFS) : Option Manifest :=
  lookupA fs.manifests version

/-- `write_manifest`: creates the version directory (and the versions root)
if absent, then overwrites the manifest file of that version. -/
def write_manifest (version : Nat) (data : Manifest) (fs : VersionsFS) : VersionsFS :=
  { dirExists := true
    dirs := if fs.dirs.contains (pad2 version) then fs.dirs
            else fs.dirs ++ [pad2 version]
    manifests := setA fs.manifests version data }

/-- `create_new_version`: allocates `get_latest_version + 1` and writes its
initial manifest with empty `images` and `books`. The creation timestamp and
the git commit are environment inputs and are passed as arguments `now` and
`commit`. -/
def create_new_version (now commit message style : String) (fs : VersionsFS) :
    Nat × VersionsFS :=
  let newVersion := get_latest_version fs + 1
  let manifest : Manifest :=
    { version := newVersion, created := now, commit := commit,
      message := message, style := style, images := [], books := [] }
  (newVersion, write_manifest newVersion manifest fs)

/-- `update_manifest_image`: raises `ValueError` when the manifest is
missing, otherwise upserts one image entry and rewrites the manifest. The
body runs under the module-level manifest lock, so one call is atomic with
respect to other manifest updates in the process. -/
def update_manifest_image (version : Nat) (pageStem filename promptHash : String)
    (fs : VersionsFS) : Except String VersionsFS :=
  match read_manifest version fs with
  | none => .error "ValueError"
  | some manifest =>
      .ok (write_manifest version
        { manifest with
          images := setA manifest.images pageStem
            { file := filename, promptHash := some promptHash } } fs)

/-- `update_manifest_book`: raises `ValueError` when the manifest is
missing, otherwise appends the filename to `books` unless already present,
and rewrites the manifest (also under the manifest lock). -/
def update_manifest_book (version : Nat) (bookFilename : String)
    (fs : VersionsFS) : Except String VersionsFS :=
  match read_manifest version fs with
  | none => .error "ValueError"
  | some manifest =>
      let manifest :=
        if manifest.books.contains bookFilename then manifest
        else { manifest with books := manifest.books ++ [bookFilename] }
      .ok (write_manifest version manifest fs)

/-- Sorting used by `compute_prompt_hash`: Python `sorted` on strings, i.e.
lexicographic order on code points, which is the `String` linear order. -/
def sortStrings (l : List String) : List String := l.insertionSort (· ≤ ·)

/-- Python `",".join(l)`. -/
def commaJoin : List String → String
  | [] => ""
  | [s] => s
  | s :: rest => s ++ "," ++ commaJoin rest

/-- The canonical content string hashed by `compute_prompt_hash`: the prompt,
then `|seed={seed}` when a seed is given, then `|refs=` and the sorted
comma-joined reference images when that list is present and nonempty (an
empty list is falsy in Python and is skipped like `None`). -/
def canonicalContent (prompt : String) (seed : Option Int)
    (refImages : Option (List String)) : String :=
  let c1 :=
    match seed with
    | some s => prompt ++ "|seed=" ++ pyIntStr s
    | none => prompt
  match refImages with
  | some refs =>
      if refs.isEmpty then c1
      else c1 ++ "|refs=" ++ commaJoin (sortStrings refs)
  | none => c1

/-- `compute_prompt_hash`: the first five hexadecimal characters of the
SHA-256 digest of the UTF-8 encoded canonical content string. -/
def compute_prompt_hash (prompt : String) (seed : Option Int)
    (refImages : Option (List String)) : String :=
  String.mk ((sha256Hex (utf8Encode (canonicalContent prompt seed refImages))).data.take 5)

/-- Outcome of the `subprocess.run` call inside `get_git_commit`: either the
process ran to completion with an exit code and captured stdout, or spawning
the process itself failed (for example the git executable is missing), which
raises an `OSError` rather than a `CalledProcessError`. -/
inductive GitOutcome where
  | completed (exitCode : Nat) (stdout : String)
  | launchFailure
deriving DecidableEq, Repr

/-- `get_git_commit`: on exit code 0 returns the stripped stdout; a nonzero
exit code raises `CalledProcessError`, which the function catches, returning
the sentinel; a failure to launch the process raises an error the `except`
clause does not catch. -/
def get_git_commit (outcome : GitOutcome) : Except String String :=
  match outcome with
  | .completed exitCode out =>
      if exitCode == 0 then .ok (pyStrip out) else .ok "unknown"
  | .launchFailure => .error "FileNotFoundError"

/-- `get_prompt_path`: `out/images/{page_stem}-{prompt_hash}.txt`. -/
def get_prompt_path (pageStem promptHash : String) : String :=
  "out/images/" ++ pageStem ++ "-" ++ promptHash ++ ".txt"

/-! ### scripts/gen_book.py -/

/-- One value of the prompts dict built by `_build_all_prompts`: the prompt
text, the reference image paths, the reference labels, and the fingerprint. -/
structure PromptData where
  prompt : String
  refImages : List String
  refLabels : List String
  promptHash : String
deriving DecidableEq, Repr

/-- Result of `_check_version_needed`: either `sys.exit(1)`, carrying the
filesystem state at the moment of exit, or the version number to use with
the resulting filesystem state. -/
inductive CheckResult where
  | exit (fs : VersionsFS)
  | ok (version : Nat) (fs : VersionsFS)
deriving DecidableEq, Repr

/-- Python truthiness of the `--message` option as tested by
`if not message:` three times in `_check_version_needed`: missing when the
option was not given (`None`) or when it is the empty string. -/
def msgMissing : Option String → Bool
  | none => true
  | some m => m.data.isEmpty

/-- The per-page staleness test of `_check_version_needed`: a page is
changed when it is absent from the stored hashes, when its stored entry has
no fingerprint, or when the stored fingerprint differs from the current
one. -/
def pageChanged (storedHashes : List (String × Option String))
    (page currentHash : String) : Bool :=
  match lookupA storedHashes page with
  | none => true
  | some none => true
  | some (some h) => h != currentHash

/-- `_check_version_needed`: decides which version to use. With no versions
yet, or a missing manifest, or any changed page, a truthy `--message` is
required and a fresh version is created; otherwise the latest version is
reused untouched. `now` and `commit` are the environment inputs consumed by
`create_new_version` on the creation paths. -/
def _check_version_needed (now commit : String)
    (currentHashes : List (String × String)) (styleId : String)
    (message : Option String) (fs : VersionsFS) : CheckResult :=
  let latestVersion := get_latest_version fs
  if latestVersion == 0 then
    if msgMissing message then .exit fs
    else
      let r := create_new_version now commit (message.getD "") styleId fs
      .ok r.1 r.2
  else
    match read_manifest latestVersion fs with
    | none =>
        if msgMissing message then .exit fs
        else
          let r := create_new_version now commit (message.getD "") styleId fs
          .ok r.1 r.2
    | some manifest =>
        let storedHashes := manifest.images.map (fun kv => (kv.1, kv.2.promptHash))
        let promptsChanged :=
          currentHashes.any (fun pc => pageChanged storedHashes pc.1 pc.2)
        if promptsChanged then
          if msgMissing message then .exit fs
          else
            let r := create_new_version now commit (message.getD "") styleId fs
            .ok r.1 r.2
        else .ok latestVersion fs

/-- `_save_prompts`: the shared prompt-text pool `out/images`, modelled as
an association list from file path to file content. For each page the prompt
is written to its path only when no file exists there yet. -/
def _save_prompts (prompts : List (String × PromptData))
    (pool : List (String × String)) : List (String × String) :=
  prompts.foldl
    (fun pool entry =>
      let path := get_prompt_path entry.1 entry.2.promptHash
      if (lookupA pool path).isSome then pool
      else pool ++ [(path, entry.2.prompt)])
    pool

/-- One execution order of a collection of `update_manifest_image` calls.
Each call runs atomically under the module-level manifest lock, so a
concurrent execution of the collection is some sequential order of the
calls; a raised `ValueError` aborts the run. -/
def apply_updates (version : Nat) (updates : List (String × String × String))
    (fs : VersionsFS) : Except String VersionsFS :=
  match updates with
  | [] => .ok fs
  | u :: rest =>
      match update_manifest_image version u.1 u.2.1 u.2.2 fs with
      | .error e => .error e
      | .ok fs1 => apply_updates version rest fs1

/-! ### Association-list lemmas -/

theorem lookupA_setA_self {κ α : Type} [DecidableEq κ] (l : List (κ × α)) (k : κ) (v : α) :
    lookupA (setA l k v) k = some v := by
  induction l with
  | nil => simp [setA, lookupA]
  | cons hd tl ih =>
      obtain ⟨k1, w⟩ := hd
      by_cases h : k1 = k
      · subst h; simp [setA, lookupA]
      · simp [setA, lookupA, h, ih]

theorem lookupA_setA_ne {κ α : Type} [DecidableEq κ] (l : List (κ × α)) (k key : κ)
    (v : α) (h : key ≠ k) : lookupA (setA l k v) key = lookupA l key := by
  have hk : ¬k = key := fun hh => h hh.symm
  induction l with
  | nil => simp only [setA, lookupA, if_neg hk]
  | cons hd tl ih =>
      obtain ⟨k1, w⟩ := hd
      simp only [setA]
      by_cases h1 : k1 = k
      · subst h1
        simp only [if_pos rfl, lookupA, if_neg hk]
      · rw [if_neg h1]
        by_cases h2 : k1 = key
        · simp only [lookupA, if_pos h2]
        · simp only [lookupA, if_neg h2, ih]

theorem lookupA_map_snd {κ α β : Type} [DecidableEq κ] (f : α → β)
    (l : List (κ × α)) (k : κ) :
    lookupA (l.map (fun kv => (kv.1, f kv.2))) k = (lookupA l k).map f := by
  induction l with
  | nil => simp [lookupA]
  | cons hd tl ih =>
      obtain ⟨k1, w⟩ := hd
      by_cases h : k1 = k <;> simp [lookupA, h, ih]

theorem lookupA_append_single {κ α : Type} [DecidableEq κ] (l : List (κ × α))
    (k key : κ) (v : α) :
    lookupA (l ++ [(k, v)]) key =
      match lookupA l key with
      | some c => some c
      | none => if k = key then some v else none := by
  induction l with
  | nil => simp [lookupA]
  | cons hd tl ih =>
      obtain ⟨k1, w⟩ := hd
      by_cases h : k1 = key <;> simp [lookupA, h, ih]

/-! ### Claim C9: get_git_commit -/

/-- C9 counterexample: when spawning the git process fails (for example the
git executable is absent), the `except subprocess.CalledProcessError` clause
does not match and the exception propagates to the caller, so
`get_git_commit` neither returns a revision string nor the sentinel. -/
theorem get_git_commit_launch_failure_raises :
    get_git_commit GitOutcome.launchFailure = Except.error "FileNotFoundError" := rfl

/-- C9 (amended): whenever the git subprocess runs to completion, whatever
its exit code and output, `get_git_commit` raises nothing and returns either
the stripped stdout or the sentinel string `unknown`; only a failure to
launch the process propagates an exception. -/
theorem get_git_commit_total_on_completed (exitCode : Nat) (out : String) :
    get_git_commit (GitOutcome.completed exitCode out) = Except.ok (pyStrip out) ∨
    get_git_commit (GitOutcome.completed exitCode out) = Except.ok "unknown" := by
  cases h : exitCode == 0
  · exact Or.inr (by simp [get_git_commit, h])
  · exact Or.inl (by simp [get_git_commit, h])

/-! ### Claim C6: get_latest_version -/

/-- The accumulator step of the directory scan in `get_latest_version`. -/
def twoDigitStep (maxVersion : Nat) (name : String) : Nat :=
  if pyIsdigit name && name.length == 2 then max maxVersion (pyInt name) else maxVersion

theorem get_latest_version_eq_foldl (fs : VersionsFS) :
    get_latest_version fs =
      if fs.dirExists then fs.dirs.foldl twoDigitStep 0 else 0 := rfl

theorem le_foldl_twoDigitStep (l : List String) (init : Nat) :
    init ≤ l.foldl twoDigitStep init := by
  induction l generalizing init with
  | nil => exact Nat.le_refl init
  | cons x xs ih =>
      refine Nat.le_trans ?_ (ih (twoDigitStep init x))
      unfold twoDigitStep
      split
      · exact Nat.le_max_left _ _
      · exact Nat.le_refl init

theorem mem_le_foldl_twoDigitStep (l : List String) (d : String)
    (hcond : (pyIsdigit d && d.length == 2) = true) :
    ∀ init, d ∈ l → pyInt d ≤ l.foldl twoDigitStep init := by
  induction l with
  | nil => intro init hd; cases hd
  | cons x xs ih =>
      intro init hd
      rcases List.mem_cons.mp hd with h | h
      · subst h
        refine Nat.le_trans ?_ (le_foldl_twoDigitStep xs (twoDigitStep init d))
        unfold twoDigitStep
        rw [hcond]
        simp
      · exact ih (twoDigitStep init x) h

theorem foldl_twoDigitStep_attained (l : List String) (init : Nat) :
    l.foldl twoDigitStep init = init ∨
    ∃ d ∈ l, (pyIsdigit d && d.length == 2) = true ∧
      l.foldl twoDigitStep init = pyInt d := by
  induction l generalizing init with
  | nil => exact Or.inl rfl
  | cons x xs ih =>
      have step : List.foldl twoDigitStep init (x :: xs) =
          List.foldl twoDigitStep (twoDigitStep init x) xs := rfl
      rcases ih (twoDigitStep init x) with h | ⟨d, hdmem, hdcond, hdval⟩
      · rw [step, h]
        unfold twoDigitStep
        by_cases hc : (pyIsdigit x && x.length == 2) = true
        · rw [if_pos hc]
          rcases max_choice init (pyInt x) with hm | hm
          · exact Or.inl hm
          · exact Or.inr ⟨x, List.mem_cons_self x xs, hc, hm⟩
        · rw [if_neg hc]
          exact Or.inl rfl
      · exact Or.inr ⟨d, List.mem_cons_of_mem x hdmem, hdcond, by rw [step, hdval]⟩

/-- C6 counterexample: the scan in `get_latest_version` only counts
directory names of exactly two digits, so with a single version directory
named `100` (all digits, length three) the function returns 0, not the
maximum numeric name 100. -/
theorem get_latest_version_three_digit_counterexample :
    get_latest_version { dirExists := true, dirs := ["100"], manifests := [] } = 0 ∧
    pyIsdigit "100" = true ∧ ("100" : String).length = 3 := by decide

/-- C6 (amended): `get_latest_version` returns the maximum integer among the
directory names that consist of exactly two digits, and returns 0 when the
versions directory does not exist or contains no such directory: the result
is 0 when the directory is missing, it bounds every exactly-two-digit
numeric directory name from above, and it is 0 or attained by such a
name. -/
theorem get_latest_version_max_two_digit (fs : VersionsFS) :
    (fs.dirExists = false → get_latest_version fs = 0) ∧
    (∀ d ∈ fs.dirs, fs.dirExists = true →
      (pyIsdigit d && d.length == 2) = true → pyInt d ≤ get_latest_version fs) ∧
    (fs.dirExists = true →
      get_latest_version fs = 0 ∨
      ∃ d ∈ fs.dirs, (pyIsdigit d && d.length == 2) = true ∧
        get_latest_version fs = pyInt d) := by
  refine ⟨fun h => ?_, fun d hd he hc => ?_, fun he => ?_⟩
  · rw [get_latest_version_eq_foldl, h]
    simp
  · rw [get_latest_version_eq_foldl, he, if_pos rfl]
    exact mem_le_foldl_twoDigitStep fs.dirs d hc 0 hd
  · rw [get_latest_version_eq_foldl, he, if_pos rfl]
    exact foldl_twoDigitStep_attained fs.dirs 0

/-- C6 witness: instantiating the amended theorem on a directory listing
containing `03` and `10` shows the bound conjunct applies at `10`. -/
theorem get_latest_version_max_two_digit_witness :
    pyInt "10" ≤ get_latest_version { dirExists := true, dirs := ["03", "10"], manifests := [] } :=
  (get_latest_version_max_two_digit
    { dirExists := true, dirs := ["03", "10"], manifests := [] }).2.1
    "10" (by decide) rfl (by decide)

/-! ### Claim C7: _save_prompts -/

/-- C7: prompt-record writes are write-once. For every prompt pool and every
prompts mapping, a file path that already holds content before the call
holds the same content after it (even when the new prompt text differs),
and any path that gains content was absent before and is the prompt path of
one of the given pages, receiving that page's prompt text. -/
theorem save_prompts_write_once (prompts : List (String × PromptData))
    (pool : List (String × String)) (path : String) :
    (∀ c, lookupA pool path = some c →
      lookupA (_save_prompts prompts pool) path = some c) ∧
    (lookupA pool path = none →
      lookupA (_save_prompts prompts pool) path = none ∨
      ∃ e ∈ prompts, path = get_prompt_path e.1 e.2.promptHash ∧
        lookupA (_save_prompts prompts pool) path = some e.2.prompt) := by
  induction prompts generalizing pool with
  | nil => exact ⟨fun c hc => hc, fun h => Or.inl h⟩
  | cons e es ih =>
      have hstep : _save_prompts (e :: es) pool =
          _save_prompts es
            (if (lookupA pool (get_prompt_path e.1 e.2.promptHash)).isSome then pool
             else pool ++ [(get_prompt_path e.1 e.2.promptHash, e.2.prompt)]) := rfl
      by_cases hex : (lookupA pool (get_prompt_path e.1 e.2.promptHash)).isSome
      · rw [hstep, if_pos hex]
        refine ⟨(ih pool).1, fun h => ?_⟩
        rcases (ih pool).2 h with h1 | ⟨x, hx, hpath, hval⟩
        · exact Or.inl h1
        · exact Or.inr ⟨x, List.mem_cons_of_mem e hx, hpath, hval⟩
      · rw [hstep, if_neg hex]
        set p0 := get_prompt_path e.1 e.2.promptHash with hp0
        have happ := lookupA_append_single pool p0 path e.2.prompt
        constructor
        · intro c hc
          refine (ih (pool ++ [(p0, e.2.prompt)])).1 c ?_
          rw [happ, hc]
        · intro h
          by_cases hp : p0 = path
          · have hlook : lookupA (pool ++ [(p0, e.2.prompt)]) path = some e.2.prompt := by
              rw [happ, h, if_pos hp]
            exact Or.inr ⟨e, List.mem_cons_self e es, hp.symm,
              (ih (pool ++ [(p0, e.2.prompt)])).1 e.2.prompt hlook⟩
          · have hlook : lookupA (pool ++ [(p0, e.2.prompt)]) path = none := by
              rw [happ, h, if_neg hp]
            rcases (ih (pool ++ [(p0, e.2.prompt)])).2 hlook with h1 | ⟨x, hx, hpath, hval⟩
            · exact Or.inl h1
            · exact Or.inr ⟨x, List.mem_cons_of_mem e hx, hpath, hval⟩

/-- C7 witness: on a pool already holding content `old` at the prompt path
of page `p1` with fingerprint `abc12`, saving a differing prompt text for
that page leaves the stored content `old` unchanged. -/
theorem save_prompts_write_once_witness :
    lookupA
      (_save_prompts
        [("p1", { prompt := "new text", refImages := [], refLabels := [],
                  promptHash := "abc12" })]
        [("out/images/p1-abc12.txt", "old")])
      "out/images/p1-abc12.txt" = some "old" :=
  (save_prompts_write_once
    [("p1", { prompt := "new text", refImages := [], refLabels := [],
              promptHash := "abc12" })]
    [("out/images/p1-abc12.txt", "old")]
    "out/images/p1-abc12.txt").1 "old" (by decide)

/-! ### Claim C8: update_manifest_book -/

theorem read_write_manifest (v : Nat) (m : Manifest) (fs : VersionsFS) :
    read_manifest v (write_manifest v m fs) = some m := by
  simp only [read_manifest, write_manifest]
  exact lookupA_setA_self fs.manifests v m

/-- A manifest whose books list already holds the same filename twice. -/
def manDupBooks : Manifest :=
  { version := 1, created := "t", commit := "c", message := "m", style := "s",
    images := [], books := ["b.pdf", "b.pdf"] }

/-- A filesystem state holding version 1 with the duplicate-books manifest. -/
def fsDupBooks : VersionsFS :=
  { dirExists := true, dirs := ["01"], manifests := [(1, manDupBooks)] }

/-- C8 counterexample: on a manifest whose books list already holds the
filename twice (a state never produced by this module, but the claim
quantifies over every version with an existing manifest), calling
`update_manifest_book` leaves the state entirely unchanged, so two calls
with that filename leave two occurrences in the books list, not exactly
one. -/
theorem update_manifest_book_duplicate_counterexample :
    update_manifest_book 1 "b.pdf" fsDupBooks = Except.ok fsDupBooks ∧
    read_manifest 1 fsDupBooks = some manDupBooks ∧
    List.count "b.pdf" manDupBooks.books = 2 :=
  ⟨rfl, rfl, by decide⟩

/-- C8 (amended): provided the filename occurs at most once in the books
list of the existing manifest (which holds for every manifest this module
itself creates and maintains, since books are only ever appended when
absent), `update_manifest_book` is idempotent and set-like: two calls with
the same filename leave exactly one occurrence in the books list, and a
call whose filename is already present leaves the manifest unchanged. -/
theorem update_manifest_book_setlike (v : Nat) (fs : VersionsFS) (man : Manifest)
    (fname : String) (hman : read_manifest v fs = some man)
    (hcount : List.count fname man.books ≤ 1) :
    ∃ fs1 fs2 man2,
      update_manifest_book v fname fs = Except.ok fs1 ∧
      update_manifest_book v fname fs1 = Except.ok fs2 ∧
      read_manifest v fs2 = some man2 ∧
      List.count fname man2.books = 1 ∧
      (fname ∈ man.books → read_manifest v fs1 = some man) := by
  by_cases hmem : man.books.contains fname
  · have hmem1 : fname ∈ man.books := List.elem_iff.mp hmem
    have hone : List.count fname man.books = 1 :=
      Nat.le_antisymm hcount (List.count_pos_iff.mpr hmem1)
    refine ⟨write_manifest v man fs, write_manifest v man (write_manifest v man fs),
      man, ?_, ?_, ?_, hone, fun _ => read_write_manifest v man fs⟩
    · simp only [update_manifest_book, hman, hmem, if_pos]
    · simp only [update_manifest_book, read_write_manifest, hmem, if_pos]
    · exact read_write_manifest v man (write_manifest v man fs)
  · have hmem1 : fname ∉ man.books := fun h => hmem (List.elem_iff.mpr h)
    have hzero : List.count fname man.books = 0 := List.count_eq_zero.mpr hmem1
    have hmem2 : ({ man with books := man.books ++ [fname] } : Manifest).books.contains fname :=
      List.elem_iff.mpr (List.mem_append_right man.books (List.mem_singleton.mpr rfl))
    refine ⟨write_manifest v { man with books := man.books ++ [fname] } fs,
      write_manifest v { man with books := man.books ++ [fname] }
        (write_manifest v { man with books := man.books ++ [fname] } fs),
      { man with books := man.books ++ [fname] }, ?_, ?_, ?_, ?_,
      fun h => absurd h hmem1⟩
    · simp only [update_manifest_book, hman, hmem]
      rfl
    · simp only [update_manifest_book, read_write_manifest, hmem2, if_pos]
    · exact read_write_manifest v _ _
    · simp [List.count_append, hzero]

/-- A manifest for version 1 with no books recorded yet. -/
def manNoBooks : Manifest :=
  { version := 1, created := "t", commit := "c", message := "m", style := "s",
    images := [], books := [] }

/-- A filesystem state holding version 1 with the empty-books manifest. -/
def fsNoBooks : VersionsFS :=
  { dirExists := true, dirs := ["01"], manifests := [(1, manNoBooks)] }

/-- C8 witness: instantiating the amended theorem on a manifest with an
empty books list: two calls with the same filename succeed and leave exactly
one occurrence. -/
theorem update_manifest_book_setlike_witness :
    ∃ fs1 fs2 man2,
      update_manifest_book 1 "b.pdf" fsNoBooks = Except.ok fs1 ∧
      update_manifest_book 1 "b.pdf" fs1 = Except.ok fs2 ∧
      read_manifest 1 fs2 = some man2 ∧
      List.count "b.pdf" man2.books = 1 ∧
      ("b.pdf" ∈ manNoBooks.books → read_manifest 1 fs1 = some manNoBooks) :=
  update_manifest_book_setlike 1 fsNoBooks manNoBooks "b.pdf" (by decide) (by decide)

/-! ### Claim C4: permutation invariance of compute_prompt_hash -/

theorem sortStrings_eq_of_perm {l l1 : List String} (h : l.Perm l1) :
    sortStrings l = sortStrings l1 :=
  List.eq_of_perm_of_sorted
    ((List.perm_insertionSort (fun a b : String => a ≤ b) l).trans
      (h.trans (List.perm_insertionSort (fun a b : String => a ≤ b) l1).symm))
    (List.sorted_insertionSort (fun a b : String => a ≤ b) l)
    (List.sorted_insertionSort (fun a b : String => a ≤ b) l1)

theorem canonicalContent_perm (p : String) (s : Option Int) (r r1 : List String)
    (h : r.Perm r1) :
    canonicalContent p s (some r) = canonicalContent p s (some r1) := by
  have hlen := h.length_eq
  cases r with
  | nil =>
      cases r1 with
      | nil => rfl
      | cons b bs => simp at hlen
  | cons a as =>
      cases r1 with
      | nil => simp at hlen
      | cons b bs =>
          have hsort := sortStrings_eq_of_perm h
          simp [canonicalContent, hsort]

/-- C4: compute_prompt_hash is a pure deterministic function (a Lean
function of its three arguments), and for every prompt, optional seed and
reference-image list, every permutation of the reference-image list produces
the same hash: the list is sorted before being folded into the hashed
content. -/
theorem compute_prompt_hash_perm_invariant (p : String) (s : Option Int)
    (r r1 : List String) (h : r.Perm r1) :
    compute_prompt_hash p s (some r) = compute_prompt_hash p s (some r1) := by
  unfold compute_prompt_hash
  rw [canonicalContent_perm p s r r1 h]

/-- C4 witness: the two orderings of a two-element reference list hash
identically. -/
theorem compute_prompt_hash_perm_invariant_witness :
    compute_prompt_hash "a cat" none (some ["b.png", "a.png"]) =
      compute_prompt_hash "a cat" none (some ["a.png", "b.png"]) :=
  compute_prompt_hash_perm_invariant "a cat" none ["b.png", "a.png"]
    ["a.png", "b.png"] (List.Perm.swap "a.png" "b.png" [])

/-! ### Claim C5: sensitivity of compute_prompt_hash -/

theorem string_eq_of_data_eq {a b : String} (h : a.data = b.data) : a = b := by
  cases a; cases b; simp_all

theorem string_append_right_cancel {p q t : String} (h : p ++ t = q ++ t) : p = q := by
  have hd := congrArg String.data h
  rw [String.data_append, String.data_append] at hd
  exact string_eq_of_data_eq (List.append_cancel_right hd)

theorem canonicalContent_split (p : String) (s : Option Int)
    (r : Option (List String)) :
    canonicalContent p s r = p ++ canonicalContent "" s r := by
  cases s with
  | none =>
      cases r with
      | none => exact (String.append_empty p).symm
      | some l =>
          by_cases hl : l.isEmpty = true
          · simp only [canonicalContent, if_pos hl]
            exact (String.append_empty p).symm
          · simp only [canonicalContent, if_neg hl, String.empty_append,
              String.append_assoc]
  | some σ =>
      cases r with
      | none =>
          simp only [canonicalContent, String.empty_append, String.append_assoc]
      | some l =>
          by_cases hl : l.isEmpty = true
          · simp only [canonicalContent, if_pos hl, String.empty_append,
              String.append_assoc]
          · simp only [canonicalContent, if_neg hl, String.empty_append,
              String.append_assoc]

theorem canonicalContent_seed_length (p : String) (σ : Int)
    (r : Option (List String)) :
    (canonicalContent p (some σ) r).length =
      (canonicalContent p none r).length + 6 + (pyIntStr σ).length := by
  have h6 : ("|seed=" : String).length = 6 := rfl
  have h7 : ("|refs=" : String).length = 6 := rfl
  cases r with
  | none =>
      simp only [canonicalContent, String.length_append, h6]
  | some l =>
      by_cases hl : l.isEmpty = true
      · simp only [canonicalContent, if_pos hl, String.length_append, h6]
      · simp only [canonicalContent, if_neg hl, String.length_append, h6, h7]
        omega

theorem canonicalContent_refs_length (p : String) (s : Option Int)
    (l : List String) (hl : ¬l.isEmpty = true) :
    (canonicalContent p s (some l)).length =
      (canonicalContent p s none).length + 6 +
        (commaJoin (sortStrings l)).length := by
  have h7 : ("|refs=" : String).length = 6 := rfl
  cases s with
  | none =>
      simp only [canonicalContent, if_neg hl, String.length_append, h7]
  | some σ =>
      simp only [canonicalContent, if_neg hl, String.length_append, h7]

theorem pyNatDigitsAux_ne_nil (fuel n : Nat) : pyNatDigitsAux fuel n ≠ [] := by
  cases fuel with
  | zero => simp [pyNatDigitsAux]
  | succ f =>
      simp only [pyNatDigitsAux]
      split
      · simp
      · simp

theorem pyIntStr_length_pos (σ : Int) : 1 ≤ (pyIntStr σ).length := by
  unfold pyIntStr
  split
  · rw [String.length_append]
    have h1 : ("-" : String).length = 1 := rfl
    omega
  · unfold natStr pyNatDigits
    have h := pyNatDigitsAux_ne_nil σ.natAbs σ.natAbs
    have hpos : 0 < (pyNatDigitsAux σ.natAbs σ.natAbs).length :=
      List.length_pos.mpr h
    simpa [String.length] using hpos

/-- C5 counterexample: the argument triples ("a|seed=1", no seed, no refs)
and ("a", seed 1, no refs) differ in both the prompt field and the seed
field, yet the canonical content strings coincide, so compute_prompt_hash
returns identical results. -/
theorem compute_prompt_hash_collision_counterexample :
    compute_prompt_hash "a|seed=1" none none = compute_prompt_hash "a" (some 1) none ∧
    "a|seed=1" ≠ "a" := by
  constructor
  · have h : canonicalContent "a|seed=1" none none =
        canonicalContent "a" (some 1) none := by decide
    unfold compute_prompt_hash
    rw [h]
  · decide

/-- C5 (amended): compute_prompt_hash depends on its arguments only through
the canonical content string, and distinct triples can collide: a
present-but-empty reference list behaves exactly like an absent one, and a
prompt that textually ends in the seed marker collides with supplying the
seed separately (further collisions remain possible through the 5-character
truncation of the digest). Changing the prompt, adding or removing a seed,
or adding or removing a nonempty reference list does change the canonical
content string fed to the hash. -/
theorem compute_prompt_hash_sensitivity :
    (∀ p s, compute_prompt_hash p s (some []) = compute_prompt_hash p s none) ∧
    (∀ (p : String) (s : Int),
      compute_prompt_hash (p ++ "|seed=" ++ pyIntStr s) none none =
        compute_prompt_hash p (some s) none) ∧
    (∀ p p1 s r, p ≠ p1 → canonicalContent p s r ≠ canonicalContent p1 s r) ∧
    (∀ p s r, canonicalContent p (some s) r ≠ canonicalContent p none r) ∧
    (∀ p s l, l ≠ [] →
      canonicalContent p s (some l) ≠ canonicalContent p s none) := by
  refine ⟨fun p s => rfl, fun p s => rfl,
    fun p p1 s r hp heq => ?_, fun p s r heq => ?_, fun p s l hl heq => ?_⟩
  · rw [canonicalContent_split p, canonicalContent_split p1] at heq
    exact hp (string_append_right_cancel heq)
  · have hlen := congrArg String.length heq
    rw [canonicalContent_seed_length] at hlen
    have hpos := pyIntStr_length_pos s
    omega
  · have hle : ¬l.isEmpty = true := by
      cases l with
      | nil => exact absurd rfl hl
      | cons a as => simp
    have hlen := congrArg String.length heq
    rw [canonicalContent_refs_length p s l hle] at hlen
    omega

/-- C5 witness: instantiating the prompt-sensitivity conjunct of the
amended theorem on two distinct prompts. -/
theorem compute_prompt_hash_sensitivity_witness :
    canonicalContent "a cat" none none ≠ canonicalContent "a dog" none none :=
  compute_prompt_hash_sensitivity.2.2.1 "a cat" "a dog" none none (by decide)

/-! ### Claims C1, C2, C3: the version resolver -/

theorem msgMissing_some_ne_empty {m : String} (hm : m ≠ "") :
    msgMissing (some m) = false := by
  show m.data.isEmpty = false
  cases hme : m.data with
  | nil => exact absurd (string_eq_of_data_eq (by rw [hme])) hm
  | cons c cs => rfl

/-- C1: when a latest version exists, its manifest is readable, and every
in-scope page has an image entry in that manifest whose stored fingerprint
equals the freshly computed one, the resolver returns the latest version
number with the filesystem state untouched (no new version directory, no
manifest write), for every value of the message option including none. -/
theorem check_version_unchanged_reuses_latest
    (now commit styleId : String) (currentHashes : List (String × String))
    (message : Option String) (fs : VersionsFS) (man : Manifest)
    (hpos : get_latest_version fs ≠ 0)
    (hman : read_manifest (get_latest_version fs) fs = some man)
    (hall : ∀ pc ∈ currentHashes, ∃ e : ImageEntry,
      lookupA man.images pc.1 = some e ∧ e.promptHash = some pc.2) :
    _check_version_needed now commit currentHashes styleId message fs =
      CheckResult.ok (get_latest_version fs) fs := by
  have hbeq : (get_latest_version fs == 0) = false := by
    cases hve : get_latest_version fs with
    | zero => exact absurd hve hpos
    | succ n => rfl
  have hch : (currentHashes.any fun pc =>
      pageChanged (man.images.map fun kv => (kv.1, kv.2.promptHash))
        pc.1 pc.2) = false := by
    rw [List.any_eq_false]
    intro pc hpc
    obtain ⟨e, he, hh⟩ := hall pc hpc
    simp only [pageChanged, lookupA_map_snd, he, Option.map_some', hh,
      bne_self_eq_false]
    simp
  unfold _check_version_needed
  simp only [hbeq, Bool.false_eq_true, if_false, hman, hch]

/-- A manifest storing fingerprint `aaaaa` for page `p1` in version 1. -/
def manP1 : Manifest :=
  { version := 1, created := "t", commit := "c", message := "init",
    style := "s",
    images := [("p1", { file := "p1-aaaaa.jpg", promptHash := some "aaaaa" })],
    books := ["x.pdf"] }

/-- A filesystem state whose latest version is 1 with manifest `manP1`. -/
def fsP1 : VersionsFS :=
  { dirExists := true, dirs := ["01"], manifests := [(1, manP1)] }

/-- C1 witness: on a state whose latest version stores fingerprint `aaaaa`
for the only in-scope page `p1` and the computed fingerprint is also
`aaaaa`, the resolver returns version 1 and leaves the state unchanged even
with no message. -/
theorem check_version_unchanged_reuses_latest_witness :
    _check_version_needed "t2" "c2" [("p1", "aaaaa")] "s" none fsP1 =
      CheckResult.ok (get_latest_version fsP1) fsP1 :=
  check_version_unchanged_reuses_latest "t2" "c2" "s" [("p1", "aaaaa")] none
    fsP1 manP1 (by decide) (by decide)
    (fun pc hpc => by
      rw [List.mem_singleton] at hpc
      subst hpc
      exact ⟨{ file := "p1-aaaaa.jpg", promptHash := some "aaaaa" },
        by decide, rfl⟩)

/-- C2 counterexample: with latest version 1 storing fingerprint `aaaaa` for
page `p1` and a computed fingerprint `bbbbb` (so a page changed), calling
the resolver with the message present but equal to the empty string exits
instead of creating version 2: Python `if not message` treats the empty
string like a missing message, so the claim fails for that message value. -/
theorem check_version_stale_empty_message_counterexample :
    get_latest_version fsP1 = 1 ∧
    read_manifest 1 fsP1 = some manP1 ∧
    pageChanged (manP1.images.map fun kv => (kv.1, kv.2.promptHash))
      "p1" "bbbbb" = true ∧
    _check_version_needed "t2" "c2" [("p1", "bbbbb")] "s" (some "") fsP1 =
      CheckResult.exit fsP1 := by decide

/-- C2 (amended): when a latest version exists with a readable manifest and
at least one in-scope page whose computed fingerprint differs from the
stored one or is absent, the resolver exits without touching the state when
the message is missing or empty, and with a non-empty message it creates
exactly version latest+1 whose initial manifest has an empty images mapping
and an empty books list (nothing copied from the prior version), returning
latest+1. -/
theorem check_version_stale_creates_next
    (now commit styleId m : String) (currentHashes : List (String × String))
    (fs : VersionsFS) (man : Manifest) (pc : String × String)
    (hpos : get_latest_version fs ≠ 0)
    (hman : read_manifest (get_latest_version fs) fs = some man)
    (hmem : pc ∈ currentHashes)
    (hchanged : pageChanged (man.images.map fun kv => (kv.1, kv.2.promptHash))
      pc.1 pc.2 = true)
    (hm : m ≠ "") :
    _check_version_needed now commit currentHashes styleId none fs =
      CheckResult.exit fs ∧
    _check_version_needed now commit currentHashes styleId (some "") fs =
      CheckResult.exit fs ∧
    _check_version_needed now commit currentHashes styleId (some m) fs =
      CheckResult.ok (get_latest_version fs + 1)
        (write_manifest (get_latest_version fs + 1)
          { version := get_latest_version fs + 1, created := now,
            commit := commit, message := m, style := styleId,
            images := [], books := [] } fs) ∧
    read_manifest (get_latest_version fs + 1)
      (write_manifest (get_latest_version fs + 1)
        { version := get_latest_version fs + 1, created := now,
          commit := commit, message := m, style := styleId,
          images := [], books := [] } fs) =
      some { version := get_latest_version fs + 1, created := now,
             commit := commit, message := m, style := styleId,
             images := [], books := [] } := by
  have hbeq : (get_latest_version fs == 0) = false := by
    cases hve : get_latest_version fs with
    | zero => exact absurd hve hpos
    | succ n => rfl
  have hch : (currentHashes.any fun pc =>
      pageChanged (man.images.map fun kv => (kv.1, kv.2.promptHash))
        pc.1 pc.2) = true :=
    List.any_eq_true.mpr ⟨pc, hmem, hchanged⟩
  refine ⟨?_, ?_, ?_, read_write_manifest _ _ _⟩
  · unfold _check_version_needed
    simp only [hbeq, Bool.false_eq_true, if_false, hman, hch, if_true, msgMissing]
  · unfold _check_version_needed
    simp only [hbeq, Bool.false_eq_true, if_false, hman, hch, if_true, msgMissing]
    rfl
  · unfold _check_version_needed
    simp only [hbeq, Bool.false_eq_true, if_false, hman, hch, if_true,
      msgMissing_some_ne_empty hm, Option.getD_some, create_new_version]

/-- C2 witness: instantiating the amended theorem on a one-page state whose
stored fingerprint `aaaaa` differs from the computed `bbbbb`: no message or
an empty message exits, and message `fix p1` creates version 2 with empty
image and book collections. -/
theorem check_version_stale_creates_next_witness :
    _check_version_needed "t2" "c2" [("p1", "bbbbb")] "s" none fsP1 =
      CheckResult.exit fsP1 ∧
    _check_version_needed "t2" "c2" [("p1", "bbbbb")] "s" (some "") fsP1 =
      CheckResult.exit fsP1 ∧
    _check_version_needed "t2" "c2" [("p1", "bbbbb")] "s" (some "fix p1") fsP1 =
      CheckResult.ok (get_latest_version fsP1 + 1)
        (write_manifest (get_latest_version fsP1 + 1)
          { version := get_latest_version fsP1 + 1, created := "t2",
            commit := "c2", message := "fix p1", style := "s",
            images := [], books := [] } fsP1) ∧
    read_manifest (get_latest_version fsP1 + 1)
      (write_manifest (get_latest_version fsP1 + 1)
        { version := get_latest_version fsP1 + 1, created := "t2",
          commit := "c2", message := "fix p1", style := "s",
          images := [], books := [] } fsP1) =
      some { version := get_latest_version fsP1 + 1, created := "t2",
             commit := "c2", message := "fix p1", style := "s",
             images := [], books := [] } :=
  check_version_stale_creates_next "t2" "c2" "s" "fix p1" [("p1", "bbbbb")]
    fsP1 manP1 ("p1", "bbbbb") (by decide) (by decide)
    (List.mem_singleton.mpr rfl) (by decide) (by decide)

/-- The state with no versions directory at all. -/
def fsEmpty : VersionsFS := { dirExists := false, dirs := [], manifests := [] }

/-- C3 counterexample: with no versions at all, calling the resolver with
the message present but equal to the empty string exits with status 1
instead of creating version 1: Python `if not message` treats the empty
string like a missing message, so the claim fails for that message value. -/
theorem check_version_initial_empty_message_counterexample :
    _check_version_needed "t" "c" [("p1", "aaaaa")] "s" (some "") fsEmpty =
      CheckResult.exit fsEmpty := by decide

/-- C3 (amended): when the versions directory is absent or empty, the
resolver exits with the filesystem untouched (no version directory and no
manifest created) when the message is missing or empty; with a non-empty
message it creates exactly one version directory, named `01` for version 1,
writes the initial manifest of version 1, and returns 1. -/
theorem check_version_initial_creates_version_one
    (now commit styleId m : String) (currentHashes : List (String × String))
    (fs : VersionsFS) (hdirs : fs.dirs = []) (hm : m ≠ "") :
    _check_version_needed now commit currentHashes styleId none fs =
      CheckResult.exit fs ∧
    _check_version_needed now commit currentHashes styleId (some "") fs =
      CheckResult.exit fs ∧
    _check_version_needed now commit currentHashes styleId (some m) fs =
      CheckResult.ok 1
        { dirExists := true, dirs := ["01"],
          manifests := setA fs.manifests 1
            { version := 1, created := now, commit := commit, message := m,
              style := styleId, images := [], books := [] } } := by
  have h0 : get_latest_version fs = 0 := by
    rw [get_latest_version_eq_foldl, hdirs]
    cases fs.dirExists <;> rfl
  have hbeq : (get_latest_version fs == 0) = true := by rw [h0]; rfl
  refine ⟨?_, ?_, ?_⟩
  · unfold _check_version_needed
    simp only [hbeq, if_true, msgMissing]
  · unfold _check_version_needed
    simp only [hbeq, if_true, msgMissing]
    rfl
  · unfold _check_version_needed
    simp only [hbeq, if_true, msgMissing_some_ne_empty hm, Bool.false_eq_true,
      if_false, Option.getD_some, create_new_version, write_manifest, h0,
      hdirs]
    rfl

/-- C3 witness: instantiating the amended theorem on the state with no
versions directory: no message or an empty message exits with the state
untouched, and the message `Initial version` creates exactly the directory
`01` and the manifest of version 1, returning 1. -/
theorem check_version_initial_creates_version_one_witness :
    _check_version_needed "t" "c" [("p1", "aaaaa")] "s" none fsEmpty =
      CheckResult.exit fsEmpty ∧
    _check_version_needed "t" "c" [("p1", "aaaaa")] "s" (some "") fsEmpty =
      CheckResult.exit fsEmpty ∧
    _check_version_needed "t" "c" [("p1", "aaaaa")] "s" (some "Initial version") fsEmpty =
      CheckResult.ok 1
        { dirExists := true, dirs := ["01"],
          manifests := setA fsEmpty.manifests 1
            { version := 1, created := "t", commit := "c",
              message := "Initial version", style := "s",
              images := [], books := [] } } :=
  check_version_initial_creates_version_one "t" "c" "s" "Initial version"
    [("p1", "aaaaa")] fsEmpty rfl (by decide)

/-! ### Claim C10: concurrent manifest image updates

Each `update_manifest_image` call runs its whole read-modify-write sequence
while holding the module-level `_manifest_lock`, so the calls of N
concurrent threads execute atomically in some order. A concurrent execution
is therefore modelled as `apply_updates` over an arbitrary permutation of
the N updates. -/

theorem apply_updates_spec (v : Nat) (l : List (String × String × String)) :
    ∀ (fs : VersionsFS) (man : Manifest), read_manifest v fs = some man →
      (l.map Prod.fst).Nodup →
      ∃ fs1 man1, apply_updates v l fs = Except.ok fs1 ∧
        read_manifest v fs1 = some man1 ∧
        (∀ u ∈ l, lookupA man1.images u.1 =
          some { file := u.2.1, promptHash := some u.2.2 }) ∧
        (∀ page, page ∉ l.map Prod.fst →
          lookupA man1.images page = lookupA man.images page) := by
  induction l with
  | nil =>
      intro fs man hman _
      exact ⟨fs, man, rfl, hman, by simp, fun page _ => rfl⟩
  | cons u rest ih =>
      intro fs man hman hnodup
      have hnotin : u.1 ∉ rest.map Prod.fst := (List.nodup_cons.mp hnodup).1
      have hnodup1 : (rest.map Prod.fst).Nodup := (List.nodup_cons.mp hnodup).2
      have hstep : update_manifest_image v u.1 u.2.1 u.2.2 fs =
          Except.ok (write_manifest v
            { man with images := setA man.images u.1 ⟨u.2.1, some u.2.2⟩ } fs) := by
        simp only [update_manifest_image, hman]
      have hread1 := read_write_manifest v
        { man with images := setA man.images u.1 ⟨u.2.1, some u.2.2⟩ } fs
      obtain ⟨fs2, man2, happ, hread2, hall, hframe⟩ :=
        ih (write_manifest v
            { man with images := setA man.images u.1 ⟨u.2.1, some u.2.2⟩ } fs)
          { man with images := setA man.images u.1 ⟨u.2.1, some u.2.2⟩ }
          hread1 hnodup1
      refine ⟨fs2, man2, ?_, hread2, ?_, ?_⟩
      · show apply_updates v (u :: rest) fs = Except.ok fs2
        simp only [apply_updates, hstep]
        exact happ
      · intro w hw
        rcases List.mem_cons.mp hw with h | h
        · subst h
          rw [hframe w.1 hnotin]
          exact lookupA_setA_self man.images w.1 _
        · exact hall w h
      · intro page hp
        have hp1 : page ∉ rest.map Prod.fst :=
          fun hh => hp (List.mem_cons_of_mem _ hh)
        have hpne : page ≠ u.1 := by
          intro hh
          exact hp (by rw [hh, List.map_cons]; exact List.mem_cons_self _ _)
        rw [hframe page hp1]
        exact lookupA_setA_ne man.images u.1 page _ hpne

/-- C10: for every version with an existing manifest and every collection
of image updates for pairwise distinct page keys, every execution order of
the corresponding `update_manifest_image` calls (each call atomic under the
module-level manifest lock, so a concurrent execution is some order)
succeeds and leaves a manifest containing the image entry of every one of
the N updates: no update is lost. -/
theorem concurrent_image_updates_all_persist
    (v : Nat) (updates order : List (String × String × String))
    (fs : VersionsFS) (man : Manifest)
    (hman : read_manifest v fs = some man)
    (hnodup : (updates.map Prod.fst).Nodup)
    (horder : order.Perm updates) :
    ∃ fs1 man1, apply_updates v order fs = Except.ok fs1 ∧
      read_manifest v fs1 = some man1 ∧
      ∀ u ∈ updates, lookupA man1.images u.1 =
        some { file := u.2.1, promptHash := some u.2.2 } := by
  have hnodup1 : (order.map Prod.fst).Nodup :=
    ((horder.map Prod.fst).nodup_iff).mpr hnodup
  obtain ⟨fs1, man1, happ, hread, hall, _⟩ :=
    apply_updates_spec v order fs man hman hnodup1
  exact ⟨fs1, man1, happ, hread,
    fun u hu => hall u (horder.mem_iff.mpr hu)⟩

/-- A manifest of version 1 with no images recorded yet. -/
def manNoImages : Manifest :=
  { version := 1, created := "t", commit := "c", message := "m", style := "s",
    images := [], books := [] }

/-- A filesystem state holding version 1 with the empty-images manifest. -/
def fsNoImages : VersionsFS :=
  { dirExists := true, dirs := ["01"], manifests := [(1, manNoImages)] }

/-- C10 witness: two updates for the distinct pages `p1` and `p2`, executed
in the reversed order, both persist in the final manifest. -/
theorem concurrent_image_updates_all_persist_witness :
    ∃ fs1 man1,
      apply_updates 1 [("p2", "f2", "h2"), ("p1", "f1", "h1")] fsNoImages =
        Except.ok fs1 ∧
      read_manifest 1 fs1 = some man1 ∧
      ∀ u ∈ [("p1", "f1", "h1"), ("p2", "f2", "h2")],
        lookupA man1.images u.1 =
          some { file := u.2.1, promptHash := some u.2.2 } :=
  concurrent_image_updates_all_persist 1
    [("p1", "f1", "h1"), ("p2", "f2", "h2")]
    [("p2", "f2", "h2"), ("p1", "f1", "h1")]
    fsNoImages manNoImages (by decide) (by decide)
    (List.Perm.swap ("p1", "f1", "h1") ("p2", "f2", "h2") [])
